import Mathlib

/-!
Verification of the codet frontend against its natural-language
specification.  The React components and the API service layer are
shallowly embedded: request bodies become lists of key/value pairs over a
small JSON value type, pure helper functions (icon selection, snippet
formatting, URL extraction, upload filtering) become Lean functions on
`String`/`List Char`, and the backend scorer - which is not part of the
frontend sources - is modelled from the specification where a claim needs
it.  JavaScript `||`-defaulting on strings is modelled by an explicit
empty-string test, and `Option` stands for `null`/`undefined`.
-/

namespace Codet

/-- Value model for the JSON request bodies the frontend builds: strings,
integers, `null`, and arrays of strings (the only array the frontend
sends is the language filter). -/
inductive JVal where
  | str (s : String)
  | num (n : Int)
  | nullv
  | arr (elems : List String)
deriving DecidableEq, Repr

/-- The whitespace class of JavaScript regular expressions and
`String.prototype.trim`, restricted to the ASCII range that can occur in
the strings these components handle. -/
def jsWsChar (c : Char) : Bool :=
  c == ' ' || c == '\t' || c == '\n' || c == '\r' || c == '\x0b' || c == '\x0c'

/-- Core of `String.prototype.trim` on the underlying character list. -/
def jsTrimCore (l : List Char) : List Char :=
  ((l.dropWhile jsWsChar).reverse.dropWhile jsWsChar).reverse

/-- JavaScript `s.trim()`. -/
def jsTrim (s : String) : String := ⟨jsTrimCore s.data⟩

/-- JavaScript `detail || fallback` on an optional string field of an
error-response body: a missing field and a present-but-empty field are
both falsy and select the fallback. -/
def jsDetailOr (detail : Option String) (fallback : String) : String :=
  match detail with
  | some d => if d = "" then fallback else d
  | none => fallback

/- ===== Error-message fallbacks (claim C6) =====
   src/unnamed/part_002 `ChatInterface.handleSubmit` catch branch,
   src/frontend/src/components/GitHubAnalyzer.js `handleAnalyze` catch
   branch, src/unnamed/part_005 `AnalysisDashboard.fetchAnalysisData`
   catch branch. -/

/-- Error content shown by `ChatInterface.handleSubmit` on a failed chat
call: `err.response?.data?.detail || 'Failed to get response from the AI'`. -/
def chatErrorContent (detail : Option String) : String :=
  jsDetailOr detail "Failed to get response from the AI"

/-- Error shown by `GitHubAnalyzer.handleAnalyze` on a failed analyze
call. -/
def analyzeErrorContent (detail : Option String) : String :=
  jsDetailOr detail "Failed to analyze repository. Please try again."

/-- Error shown by `AnalysisDashboard.fetchAnalysisData` on a failed
report fetch. -/
def reportErrorContent (detail : Option String) : String :=
  jsDetailOr detail "Failed to load analysis results"

/- ===== Category icons (claim C7) =====
   src/frontend/src/components/IssueCard.js `getCategoryIcon`. -/

/-- `IssueCard.getCategoryIcon`: switch over the issue category with a
default icon. -/
def getCategoryIcon (category : String) : String :=
  if category = "security" then "🔒"
  else if category = "performance" then "⚡"
  else if category = "duplication" then "🔄"
  else if category = "complexity" then "📊"
  else if category = "testing" then "🧪"
  else if category = "documentation" then "📚"
  else if category = "style" then "🎨"
  else if category = "maintainability" then "🔧"
  else "📝"

/-- The eight issue categories of the data model, in the order of the
switch in `getCategoryIcon`. -/
def issueCategories : List String :=
  ["security", "performance", "duplication", "complexity",
   "testing", "documentation", "style", "maintainability"]

/- ===== Chat flow (claim C2) =====
   src/unnamed/part_000 `chatWithCodebase`,
   src/unnamed/part_002 `ChatInterface.handleSubmit`. -/

/-- Body posted by `api.chatWithCodebase(question, path, configPath)`;
the JavaScript default `configPath = null` becomes `none`, serialized as
JSON `null`. -/
def chatWithCodebase (question path : String)
    (configPath : Option String := none) : List (String × JVal) :=
  [("question", .str question),
   ("path", .str path),
   ("config_path", match configPath with | some c => .str c | none => .nullv)]

/-- Fields of a chat response body that `ChatInterface` reads. -/
structure ChatResponse where
  answer : String
  analyzed_files : List String
  files_analyzed_count : Int
  timestamp : String
deriving DecidableEq, Repr

/-- The AI chat message object that `ChatInterface.handleSubmit` builds
from a successful response (the `id` component is `Date.now() + 1`,
passed in here as a parameter). -/
structure AiMessage where
  id : Int
  msgType : String
  content : String
  analyzedFiles : List String
  filesAnalyzedCount : Int
  timestamp : String
deriving DecidableEq, Repr

/-- Construction of the displayed AI message from the response fields. -/
def mkAiMessage (idv : Int) (r : ChatResponse) : AiMessage :=
  { id := idv
    msgType := "ai"
    content := r.answer
    analyzedFiles := r.analyzed_files
    filesAnalyzedCount := r.files_analyzed_count
    timestamp := r.timestamp }

/-- `ChatInterface.handleSubmit`: returns the request body posted to
`/api/chat`, or `none` when the guard
`!inputValue.trim() || !githubUrl.trim()` aborts the submission.  The
question is sent untrimmed; the path is `githubUrl.trim()`. -/
def chatHandleSubmit (inputValue githubUrl : String) :
    Option (List (String × JVal)) :=
  if jsTrim inputValue = "" then none
  else if jsTrim githubUrl = "" then none
  else some [("question", .str inputValue), ("path", .str (jsTrim githubUrl))]

/- ===== Indexing flow (claim C3) =====
   src/unnamed/part_000 `indexCodebase`,
   src/unnamed/part_003 `CodebaseIndexing.handleIndex`. -/

/-- Body posted by `api.indexCodebase(path, collectionName, batchSize)`
to `/api/index`, with the JavaScript default parameters. -/
def indexCodebase (path : String) (collectionName : String := "codebase")
    (batchSize : Int := 100) : List (String × JVal) :=
  [("path", .str path),
   ("collection_name", .str collectionName),
   ("batch_size", .num batchSize)]

/-- Fields of an index response body that `CodebaseIndexing` reads. -/
structure IndexResponse where
  total_chunks : Int
deriving DecidableEq, Repr

/-- `CodebaseIndexing.handleIndex`: request body sent via
`indexCodebase(path, collectionName)` (batch size left at its default),
or `none` when the `!path.trim()` guard aborts. -/
def handleIndex (path collectionName : String) :
    Option (List (String × JVal)) :=
  if jsTrim path = "" then none
  else some (indexCodebase path collectionName)

/-- Success banner built by `handleIndex` from the response. -/
def handleIndexSuccess (r : IndexResponse) : String :=
  "Successfully indexed " ++ toString r.total_chunks ++ " code chunks!"

/- ===== Quality score and MetricCard (claim C1) =====
   src/unnamed/part_004 `MetricCard`, src/unnamed/part_005
   `AnalysisDashboard`; the scorer itself is backend code. -/

/-- Issue severities of the data model. -/
inductive Severity where
  | critical
  | high
  | medium
  | low
deriving DecidableEq, Repr

/-- Per-issue severity weights of the scorer (spec values critical=12,
high=6, medium=2, low=0.5). -/
def severityWeight : Severity → ℚ
  | .critical => 12
  | .high => 6
  | .medium => 2
  | .low => 1 / 2

/-- Modelled from the spec: the Issue Aggregator & Scorer of section 4.4
is backend code absent from src/ (only the dashboard that renders its
output is present).  The weighted penalty sums the per-issue severity
weights and is clamped to the interval [0, 100]. -/
def weightedPenalty (issues : List Severity) : ℚ :=
  min 100 (max 0 ((issues.map severityWeight).sum))

/-- Modelled from the spec: `quality_score = 100 - weighted_penalty`
over the clamped penalty. -/
def quality_score (issues : List Severity) : ℚ :=
  100 - weightedPenalty issues

/-- Idealized `Number.prototype.toFixed(2)` over the rationals (the
dashboard passes `summary.quality_score.toFixed(2) || 0` as the card
value; the non-empty decimal string is truthy and coerces back to this
number in the card's arithmetic). -/
def jsToFixed2 (q : ℚ) : ℚ := (round (q * 100) : ℤ) / 100

/-- `MetricCard`: `max ? Math.round((value / max) * 100) : null`.
JavaScript `Math.round` is rounding half towards positive infinity,
which is Mathlib's `round`. -/
def metricCardPercentage (value maxv : ℚ) : Option ℤ :=
  if maxv = 0 then none else some (round (value / maxv * 100))

/-- The progress percentage of the dashboard's Quality Score card, which
is rendered with `value = quality_score.toFixed(2)` and `max = 100`. -/
def dashboardQualityPercentage (qs : ℚ) : Option ℤ :=
  metricCardPercentage (jsToFixed2 qs) 100

/- ===== Analyze flow (claim C4) =====
   src/unnamed/part_000 `analyzeGitHubRepo`/`getAnalysisResults`,
   src/unnamed/part_006 `GitHubAnalyzer.handleAnalyze`. -/

/-- Does the character class `[a-zA-Z0-9_.-]` of `validateGitHubUrl`
accept this character? -/
def ghNameChar (c : Char) : Bool :=
  c.isAlphanum || c == '_' || c == '.' || c == '-'

/-- Does the first list occur at the head of the second? -/
def listStartsWith : List Char → List Char → Bool
  | [], _ => true
  | _ :: _, [] => false
  | p :: ps, c :: cs => p == c && listStartsWith ps cs

/-- Core of `GitHubAnalyzer.validateGitHubUrl`: the anchored regular
expression over the characters of the URL.  After the literal lead-in,
the owner and repository segments are non-empty runs of `[a-zA-Z0-9_.-]`
and an optional trailing `/...` may follow; `.` does not cross a newline
and the pattern is anchored at both ends. -/
def validateGitHubUrlCore (l : List Char) : Bool :=
  if listStartsWith "https://github.com/".data l then
    let r := l.drop 19
    let o := r.takeWhile ghNameChar
    if o.isEmpty then false
    else
      match r.drop o.length with
      | '/' :: r2 =>
        let q := r2.takeWhile ghNameChar
        if q.isEmpty then false
        else
          match r2.drop q.length with
          | [] => true
          | '/' :: rest => !(rest.contains '\n')
          | _ => false
      | _ => false
  else false

/-- `GitHubAnalyzer.validateGitHubUrl`. -/
def validateGitHubUrl (url : String) : Bool :=
  validateGitHubUrlCore url.data

/-- Body posted by `api.analyzeGitHubRepo(githubUrl)` to
`/api/analyze-github`: only the URL, no language filter. -/
def analyzeGitHubRepo (githubUrl : String) : List (String × JVal) :=
  [("github_url", .str githubUrl)]

/-- The fixed language filter `GitHubAnalyzer.handleAnalyze` sends. -/
def analyzerLanguages : List String :=
  ["python", "javascript", "typescript", "java", "go", "rust"]

/-- `GitHubAnalyzer.handleAnalyze`: request body posted to
`/api/analyze-github`, or `none` when the empty-input or URL-validation
guard aborts. -/
def handleAnalyze (githubUrl : String) : Option (List (String × JVal)) :=
  if jsTrim githubUrl = "" then none
  else if validateGitHubUrl githubUrl = false then none
  else some [("github_url", .str githubUrl), ("languages", .arr analyzerLanguages)]

/-- URL requested by `api.getAnalysisResults(analysisId)`. -/
def getAnalysisResults (analysisId : String) : String :=
  "/api/report/" ++ analysisId

/-- Field of the analyze response body the component reads. -/
structure AnalyzeResponse where
  analysis_id : String
deriving DecidableEq, Repr

/-- Route `handleAnalyze` navigates to on success, from which the
dashboard issues `GET /api/report/{analysisId}`. -/
def analysisNavTarget (r : AnalyzeResponse) : String :=
  "/analysis/" ++ r.analysis_id

/- ===== File language and upload filtering (claims C8, C9) =====
   src/frontend/src/components/IssueCard.js `getFileLanguage`,
   src/unnamed/part_006 `GitHubAnalyzer.handleFileUpload`. -/

/-- JavaScript `name.split('.').pop()`: the segment after the last dot,
the whole string when it has no dot, and the empty string when it ends
in a dot. -/
def lastDotSegCore (l : List Char) : List Char :=
  (l.reverse.takeWhile (fun c => c != '.')).reverse

/-- JavaScript `s.split('.').pop().toLowerCase()` as both
`getFileLanguage` and `handleFileUpload` compute it. -/
def splitPopExt (s : String) : String :=
  ⟨(lastDotSegCore s.data).map Char.toLower⟩

/-- The extension-to-language map of `IssueCard.getFileLanguage`, in
source order. -/
def languageMap : List (String × String) :=
  [("py", "python"), ("js", "javascript"), ("jsx", "javascript"),
   ("ts", "typescript"), ("tsx", "typescript"), ("java", "java"),
   ("go", "go"), ("rs", "rust"), ("cpp", "cpp"), ("c", "c"),
   ("cs", "csharp"), ("php", "php"), ("rb", "ruby"), ("swift", "swift"),
   ("kt", "kotlin"), ("scala", "scala"), ("sh", "bash"), ("bash", "bash"),
   ("yaml", "yaml"), ("yml", "yaml"), ("json", "json"), ("xml", "xml"),
   ("html", "html"), ("css", "css"), ("scss", "scss"), ("sass", "sass"),
   ("less", "less"), ("sql", "sql"), ("md", "markdown"),
   ("dockerfile", "dockerfile")]

/-- `IssueCard.getFileLanguage`: look the lowercased last dot-segment up
in the language map, defaulting to `"text"`. -/
def getFileLanguage (filePath : String) : String :=
  (languageMap.lookup (splitPopExt filePath)).getD "text"

/-- The language selector exactly as claim C8 words it: a mapped
language only when the path has a final dot and the lowercased text
after that dot is a key of the map, `"text"` in every other case. -/
def claimC8Language (filePath : String) : String :=
  if filePath.data.contains '.' then
    (languageMap.lookup (splitPopExt filePath)).getD "text"
  else "text"

/-- Extensions `GitHubAnalyzer.handleFileUpload` accepts. -/
def allowedUploadExts : List String := ["py", "js", "jsx", "mjs", "ts", "tsx"]

/-- The kept files of `handleFileUpload`:
`files.filter(f => [..].includes(f.name.split('.').pop().toLowerCase()))`,
modelled on the file names. -/
def uploadValidFiles (names : List String) : List String :=
  names.filter (fun n => allowedUploadExts.contains (splitPopExt n))

/-- The error banner `handleFileUpload` sets when files were skipped. -/
def skippedFilesMsg (skippedCount : Nat) : String :=
  toString skippedCount ++
    " file(s) were skipped. Only .py, .js, .jsx, .mjs, .ts, and .tsx files are allowed."

/-- `GitHubAnalyzer.handleFileUpload` on a selection event: the kept
files and the error-banner state (the empty string models the
`setError('')` reset). -/
def handleFileUpload (names : List String) : List String × String :=
  if (uploadValidFiles names).length ≠ names.length then
    (uploadValidFiles names,
      skippedFilesMsg (names.length - (uploadValidFiles names).length))
  else (uploadValidFiles names, "")

/-- The keep-predicate exactly as claim C9 words it: a file is kept when
its lowercased final extension - which requires a dot in the name - is
one of the six allowed extensions. -/
def claimC9Keeps (name : String) : Bool :=
  name.data.contains '.' && allowedUploadExts.contains (splitPopExt name)

/- ===== Code snippet formatting (claim C5) =====
   src/frontend/src/components/IssueCard.js `formatCodeSnippet` and
   `formatCodeSnippetWithHighlighting`. -/

/-- The line match of both snippet formatters: the regular expression
`(caret)\s*(\d+)\|\s*(>>>\s*)?(.*)$` applied to one line.  The match is
deterministic because the whitespace, digit and marker classes are
disjoint, and a line whose code part would contain a newline never
matches (`.` cannot cross a newline and `$` only matches at the very
end).  Returns the captured digit run, whether the `>>>` marker was
present, and the code capture. -/
def parseSnippetLine (l : List Char) : Option (List Char × Bool × List Char) :=
  let r0 := l.dropWhile jsWsChar
  let num := r0.takeWhile Char.isDigit
  if num.isEmpty then none
  else
    match r0.drop num.length with
    | '|' :: r1 =>
      let r2 := r1.dropWhile jsWsChar
      if r2.take 3 = ['>', '>', '>'] then
        let code := (r2.drop 3).dropWhile jsWsChar
        if code.contains '\n' then none else some (num, true, code)
      else if r2.contains '\n' then none
      else some (num, false, r2)
    | _ => none

/-- JavaScript `lineNum.padStart(4)`. -/
def padStart4 (l : List Char) : List Char :=
  if l.length < 4 then List.replicate (4 - l.length) ' ' ++ l else l

/-- One line of `IssueCard.formatCodeSnippet`: the marked-line and
plain-line templates of the source, with non-matching lines passed
through unchanged. -/
def formatSnippetLineCore (l : List Char) : List Char :=
  match parseSnippetLine l with
  | some (num, true, code) => ">>> ".data ++ padStart4 num ++ " | ".data ++ code
  | some (num, false, code) => "    ".data ++ padStart4 num ++ " | ".data ++ code
  | none => l

/-- String wrapper for one formatted line. -/
def formatCodeSnippetLine (s : String) : String :=
  ⟨formatSnippetLineCore s.data⟩

/-- `IssueCard.formatCodeSnippet`: split on newlines, format each line,
join with newlines. -/
def formatCodeSnippet (s : String) : String :=
  String.intercalate "\n" ((s.splitOn "\n").map formatCodeSnippetLine)

/-- A rendered line of `formatCodeSnippetWithHighlighting`: either a
numbered code row - with the `problematic-line` styling flag, the padded
line number and the code content in separate spans - or a plain
passthrough row. -/
inductive RenderedLine where
  | numbered (problematic : Bool) (lineNumber : String) (content : String)
  | plain (content : String)
deriving DecidableEq, Repr

/-- One line of `IssueCard.formatCodeSnippetWithHighlighting`. -/
def renderSnippetLine (s : String) : RenderedLine :=
  match parseSnippetLine s.data with
  | some (num, hl, code) => .numbered hl ⟨padStart4 num⟩ ⟨code⟩
  | none => .plain s

/-- `IssueCard.formatCodeSnippetWithHighlighting`: one rendered row per
line of the snippet. -/
def formatCodeSnippetWithHighlighting (s : String) : List RenderedLine :=
  (s.splitOn "\n").map renderSnippetLine

/-- String wrapper for `padStart4`. -/
def jsPadStart4 (s : String) : String := ⟨padStart4 s.data⟩

/-- Does the list not start with a whitespace character?  (Decidable
side condition for the snippet-line shapes.) -/
def headNotWs (l : List Char) : Bool :=
  match l with
  | [] => true
  | c :: _ => !jsWsChar c

/- ===== GitHub repository extraction (claim C10) =====
   src/unnamed/part_005 `AnalysisDashboard.extractGithubRepo` (an
   identical extractor appears in
   src/frontend/src/components/LoadingSpinner.js, differing only in
   where the project-path fallback is read from). -/

/-- JavaScript `a || b` over two optional string fields: a missing field
and a present-but-empty field are both falsy. -/
def jsOrStr (a b : Option String) : Option String :=
  match a with
  | some s => if s = "" then b else some s
  | none => b

/-- `githubUrl.replace(/^https:\/(?!\/)/, 'https://')`: repair a missing
slash after a leading `https:/`. -/
def fixUrlCore (l : List Char) : List Char :=
  if listStartsWith "https:/".data l && !(listStartsWith "https://".data l) then
    "https://".data ++ l.drop 7
  else l

/-- String wrapper for the URL repair. -/
def fixUrl (s : String) : String := ⟨fixUrlCore s.data⟩

/-- One attempt of the regular expression
`github\.com\/([^/]+)\/([^/]+)` at the current position: the literal
`github.com/`, a non-empty run of non-slash characters, a slash, and
another non-empty run of non-slash characters.  Greedy matching of
`[^/]+` is deterministic here because the run boundary is forced by the
next slash. -/
def ghMatchAt (l : List Char) : Option (String × String) :=
  if listStartsWith "github.com/".data l then
    let t := l.drop 11
    let owner := t.takeWhile (fun c => c != '/')
    if owner.isEmpty then none
    else
      match t.drop owner.length with
      | '/' :: r2 =>
        let repo := r2.takeWhile (fun c => c != '/')
        if repo.isEmpty then none else some (⟨owner⟩, ⟨repo⟩)
      | _ => none
  else none

/-- Leftmost-match search of the unanchored regular expression over the
whole string, as `String.prototype.match` performs it. -/
def ghSearch : List Char → Option (String × String)
  | [] => none
  | c :: rest =>
    match ghMatchAt (c :: rest) with
    | some p => some p
    | none => ghSearch rest

/-- `AnalysisDashboard.extractGithubRepo`: select
`summary?.github_url || summary?.project_path`, require it truthy, fix
the URL, and search for the owner/repo pattern; `none` models the
function's `null`. -/
def extractGithubRepo (github_url project_path : Option String) :
    Option (String × String) :=
  match jsOrStr github_url project_path with
  | some s => if s = "" then none else ghSearch (fixUrl s).data
  | none => none

end Codet

namespace Codet

/-- Claim C6 counterexample: the claim states that whenever the error
body carries a `detail` field the shown message equals that detail; for
a present-but-empty detail the chat flow shows the fallback instead, so
the shown message differs from the carried detail `""`. -/
theorem chatErrorContent_empty_detail_cex :
    ¬ (chatErrorContent (some "") = "") := by decide

/-- Claim C6 (amended): in the analyze, chat and report-fetch flows the
shown error message equals the response detail when that field is
present and non-empty, equals the fixed per-flow fallback when the
detail is absent or empty, and is never the empty string. -/
theorem errorContent_detail_or_fallback_c6 (detail : Option String) :
    (∀ s, detail = some s → s ≠ "" →
      chatErrorContent detail = s ∧ analyzeErrorContent detail = s ∧
        reportErrorContent detail = s) ∧
    ((detail = none ∨ detail = some "") →
      chatErrorContent detail = "Failed to get response from the AI" ∧
      analyzeErrorContent detail = "Failed to analyze repository. Please try again." ∧
      reportErrorContent detail = "Failed to load analysis results") ∧
    (chatErrorContent detail ≠ "" ∧ analyzeErrorContent detail ≠ "" ∧
      reportErrorContent detail ≠ "") := by
  refine ⟨?_, ?_, ?_⟩
  · rintro s rfl hs
    simp [chatErrorContent, analyzeErrorContent, reportErrorContent, jsDetailOr, hs]
  · rintro (rfl | rfl) <;>
      simp [chatErrorContent, analyzeErrorContent, reportErrorContent, jsDetailOr]
  · rcases detail with _ | d
    · refine ⟨?_, ?_, ?_⟩ <;> decide
    · by_cases hd : d = ""
      · subst hd
        refine ⟨?_, ?_, ?_⟩ <;> decide
      · simp [chatErrorContent, analyzeErrorContent, reportErrorContent,
          jsDetailOr, hd]

/-- Witness for the amended claim C6 at concrete inputs. -/
theorem errorContent_detail_or_fallback_c6_witness :
    chatErrorContent (some "boom") = "boom" ∧ reportErrorContent none ≠ "" :=
  ⟨((errorContent_detail_or_fallback_c6 (some "boom")).1 "boom" rfl
      (by decide)).1,
   (errorContent_detail_or_fallback_c6 none).2.2.2.2⟩

/-- Claim C7: the eight issue categories map to pairwise distinct icons,
none of which is the default icon, and every string outside the category
set maps to the default icon `📝`; `getCategoryIcon` is a total function
of the category value alone. -/
theorem getCategoryIcon_distinct_and_default_c7 :
    (issueCategories.map getCategoryIcon).Nodup ∧
    "📝" ∉ issueCategories.map getCategoryIcon ∧
    ∀ s, s ∉ issueCategories → getCategoryIcon s = "📝" := by
  refine ⟨by decide, by decide, ?_⟩
  intro s hs
  simp only [issueCategories, List.mem_cons, List.not_mem_nil, or_false,
    not_or] at hs
  obtain ⟨h1, h2, h3, h4, h5, h6, h7, h8⟩ := hs
  simp [getCategoryIcon, h1, h2, h3, h4, h5, h6, h7, h8]

/-- Witness for claim C7: a string outside the category set gets the
default icon. -/
theorem getCategoryIcon_distinct_and_default_c7_witness :
    getCategoryIcon "imports" = "📝" :=
  getCategoryIcon_distinct_and_default_c7.2.2 "imports" (by decide)

/-- Claim C2: a submitted chat call posts exactly the question (untrimmed)
and the trimmed scope path; the service-layer `chatWithCodebase` adds only
the optional `config_path`; and the displayed AI message is built exactly
from the response fields `answer`, `analyzed_files`,
`files_analyzed_count` and `timestamp`. -/
theorem chat_request_and_message_c2 (inputValue githubUrl : String)
    (q p : String) (c : Option String) (idv : Int) (r : ChatResponse) :
    (jsTrim inputValue ≠ "" → jsTrim githubUrl ≠ "" →
      chatHandleSubmit inputValue githubUrl =
        some [("question", .str inputValue),
              ("path", .str (jsTrim githubUrl))]) ∧
    (∀ body, chatHandleSubmit inputValue githubUrl = some body →
      body.map Prod.fst = ["question", "path"]) ∧
    (chatWithCodebase q p c).map Prod.fst = ["question", "path", "config_path"] ∧
    chatWithCodebase q p none =
      [("question", .str q), ("path", .str p), ("config_path", .nullv)] ∧
    mkAiMessage idv r =
      { id := idv, msgType := "ai", content := r.answer,
        analyzedFiles := r.analyzed_files,
        filesAnalyzedCount := r.files_analyzed_count,
        timestamp := r.timestamp } := by
  refine ⟨?_, ?_, rfl, rfl, rfl⟩
  · intro h1 h2
    simp [chatHandleSubmit, h1, h2]
  · intro body hbody
    by_cases h1 : jsTrim inputValue = "" <;>
      by_cases h2 : jsTrim githubUrl = "" <;>
      simp [chatHandleSubmit, h1, h2] at hbody
    simp [← hbody]

/-- Witness for claim C2 at concrete inputs. -/
theorem chat_request_and_message_c2_witness :
    chatHandleSubmit "why?" " https://github.com/a/b " =
      some [("question", .str "why?"),
            ("path", .str "https://github.com/a/b")] :=
  (chat_request_and_message_c2 "why?" " https://github.com/a/b " "" "" none 0
      ⟨"", [], 0, ""⟩).1 (by decide) (by decide)

/-- Claim C3: `indexCodebase` posts exactly
`{path, collection_name, batch_size}`, defaulting the collection to
`"codebase"` and the batch size to `100`; `handleIndex` sends the body
with the default batch size and reads `total_chunks` from the response
for its success banner. -/
theorem index_request_defaults_c3 (p coll : String) (b : Int)
    (r : IndexResponse) :
    indexCodebase p =
      [("path", .str p), ("collection_name", .str "codebase"),
       ("batch_size", .num 100)] ∧
    (indexCodebase p coll b).map Prod.fst =
      ["path", "collection_name", "batch_size"] ∧
    (jsTrim p ≠ "" → handleIndex p coll =
      some [("path", .str p), ("collection_name", .str coll),
            ("batch_size", .num 100)]) ∧
    handleIndexSuccess r =
      "Successfully indexed " ++ toString r.total_chunks ++ " code chunks!" := by
  refine ⟨rfl, rfl, ?_, rfl⟩
  intro hp
  simp [handleIndex, hp, indexCodebase]

/-- Witness for claim C3 at concrete inputs. -/
theorem index_request_defaults_c3_witness :
    handleIndex "/srv/repo" "codebase" =
      some [("path", .str "/srv/repo"), ("collection_name", .str "codebase"),
            ("batch_size", .num 100)] :=
  (index_request_defaults_c3 "/srv/repo" "codebase" 7 ⟨0⟩).2.2.1 (by decide)

/-- Rounding over the rationals is monotone. -/
theorem rat_round_mono {a b : ℚ} (h : a ≤ b) : round a ≤ round b := by
  rw [round_eq, round_eq]
  exact Int.floor_le_floor (by linarith)

/-- Claim C1: the quality score of a report is in the closed interval
[0, 100], and the Quality Score `MetricCard` rendered with that value and
`max = 100` shows a progress percentage `Math.round(value / max * 100)`
that is between 0 and 100. -/
theorem quality_score_in_range_c1 (issues : List Severity) :
    0 ≤ quality_score issues ∧ quality_score issues ≤ 100 ∧
    ∃ p : ℤ, dashboardQualityPercentage (quality_score issues) = some p ∧
      0 ≤ p ∧ p ≤ 100 := by
  have h0 : 0 ≤ weightedPenalty issues :=
    le_min (by norm_num) (le_max_left 0 _)
  have h1 : weightedPenalty issues ≤ 100 := min_le_left _ _
  have hq0 : 0 ≤ quality_score issues := by
    unfold quality_score; linarith
  have hq1 : quality_score issues ≤ 100 := by
    unfold quality_score; linarith
  refine ⟨hq0, hq1, round (jsToFixed2 (quality_score issues)), ?_, ?_, ?_⟩
  · have h100 : (100 : ℚ) ≠ 0 := by norm_num
    simp only [dashboardQualityPercentage, metricCardPercentage, if_neg h100,
      div_mul_cancel₀ _ h100]
  · have : round (0 : ℚ) ≤ round (jsToFixed2 (quality_score issues)) := by
      apply rat_round_mono
      unfold jsToFixed2
      have : (0 : ℤ) ≤ round (quality_score issues * 100) := by
        have h := @rat_round_mono 0 (quality_score issues * 100)
          (by nlinarith)
        simpa using h
      positivity
    simpa using this
  · have hr : round (quality_score issues * 100) ≤ (10000 : ℤ) := by
      have h := @rat_round_mono (quality_score issues * 100) 10000
        (by nlinarith)
      simpa using h
    have hle : jsToFixed2 (quality_score issues) ≤ 100 := by
      unfold jsToFixed2
      rw [div_le_iff₀ (by norm_num)]
      calc ((round (quality_score issues * 100) : ℤ) : ℚ)
          ≤ ((10000 : ℤ) : ℚ) := by exact_mod_cast hr
        _ = 100 * 100 := by norm_num
    have := rat_round_mono hle
    simpa using this

/-- Claim C4 counterexample: the claim states that `analyzeGitHubRepo`
posts the source URL together with a language filter, but the body it
posts has no `languages` key. -/
theorem analyzeGitHubRepo_no_languages_cex :
    ¬ ("languages" ∈ (analyzeGitHubRepo "https://github.com/a/b").map Prod.fst) := by
  decide

/-- Claim C4 (amended): a successful analyze request returns a body
containing `analysis_id` and the report is fetchable by exactly that id:
`GitHubAnalyzer.handleAnalyze` posts the source URL together with the
language filter (while the service-layer `analyzeGitHubRepo` posts only
the URL), navigation on success targets the returned id, and
`getAnalysisResults` retrieves the report via `GET /api/report/{id}`. -/
theorem analyze_flow_c4 (url analysisId : String) (r : AnalyzeResponse) :
    analyzeGitHubRepo url = [("github_url", .str url)] ∧
    (jsTrim url ≠ "" → validateGitHubUrl url = true →
      handleAnalyze url =
        some [("github_url", .str url), ("languages", .arr analyzerLanguages)]) ∧
    getAnalysisResults analysisId = "/api/report/" ++ analysisId ∧
    analysisNavTarget r = "/analysis/" ++ r.analysis_id := by
  refine ⟨rfl, ?_, rfl, rfl⟩
  intro h1 h2
  simp [handleAnalyze, h1, h2]

/-- Witness for the amended claim C4 at a concrete URL and id. -/
theorem analyze_flow_c4_witness :
    handleAnalyze "https://github.com/into-the-night/codet" =
      some [("github_url", .str "https://github.com/into-the-night/codet"),
            ("languages", .arr analyzerLanguages)] :=
  (analyze_flow_c4 "https://github.com/into-the-night/codet" "x" ⟨"x"⟩).2.1
    (by decide) (by decide)

/-- A defaulted association-list lookup yields either the default or one
of the stored values. -/
theorem lookup_getD_mem {α β : Type} [BEq α] [LawfulBEq α]
    (m : List (α × β)) (k : α) (d : β) :
    (m.lookup k).getD d ∈ d :: m.map Prod.snd := by
  induction m with
  | nil => simp [List.lookup]
  | cons h t ih =>
    obtain ⟨a, b⟩ := h
    cases hk : k == a
    · have hstep : List.lookup k ((a, b) :: t) = List.lookup k t := by
        simp [List.lookup, hk]
      rw [hstep]
      rcases List.mem_cons.mp ih with h1 | h1
      · simp [h1]
      · simp only [List.map_cons, List.mem_cons]
        exact Or.inr (Or.inr h1)
    · simp [List.lookup, hk]

/-- Claim C8 counterexample: for the dotless path `"Dockerfile"` the
claim demands `"text"` (there is no text after a final dot), but the
code looks the whole lowercased name up and returns `"dockerfile"`. -/
theorem getFileLanguage_dotless_cex :
    ¬ (getFileLanguage "Dockerfile" = claimC8Language "Dockerfile") := by
  decide

/-- Claim C8 (amended): `getFileLanguage` is total and returns the
mapped language when the lowercased last dot-separated segment of the
path - the whole path when it contains no dot - is a key of the
extension map, and `"text"` otherwise; its result is always `"text"` or
one of the mapped language names, and on every path that does contain a
dot it agrees with the selector worded in the claim. -/
theorem getFileLanguage_total_c8 (filePath : String) :
    getFileLanguage filePath ∈ "text" :: languageMap.map Prod.snd ∧
    (filePath.data.contains '.' = true →
      getFileLanguage filePath = claimC8Language filePath) := by
  refine ⟨lookup_getD_mem _ _ _, ?_⟩
  intro h
  simp only [claimC8Language, getFileLanguage, if_pos h]

/-- Witness for the amended claim C8 at a concrete path. -/
theorem getFileLanguage_total_c8_witness :
    getFileLanguage "app/Main.PY" = claimC8Language "app/Main.PY" :=
  (getFileLanguage_total_c8 "app/Main.PY").2 (by decide)

/-- The skipped-files banner is never the empty string. -/
theorem skippedFilesMsg_ne_empty (k : Nat) : skippedFilesMsg k ≠ "" := by
  intro h
  have hd := congrArg String.data h
  rw [skippedFilesMsg] at hd
  rw [String.data_append] at hd
  have hnil : ("" : String).data = [] := rfl
  rw [hnil] at hd
  exact absurd (List.append_eq_nil.mp hd).2 (by decide)

/-- Claim C9 counterexample: a selected file named `"ts"` has no
extension, so the claim filters it out, but the code keeps it
(`split('.').pop()` of a dotless name is the whole name). -/
theorem handleFileUpload_dotless_cex :
    ¬ ((handleFileUpload ["ts"]).1 = ["ts"].filter (fun n => claimC9Keeps n)) := by
  decide

/-- Claim C9 (amended): `handleFileUpload` keeps exactly those files
whose lowercased last dot-separated name segment (the whole name when it
has no dot) is in the allowed set; when at least one file is filtered
out the error banner states the number of skipped files, and when none
is filtered out the error is cleared. -/
theorem handleFileUpload_filter_c9 (names : List String) :
    (∀ n, n ∈ (handleFileUpload names).1 ↔
      n ∈ names ∧ allowedUploadExts.contains (splitPopExt n) = true) ∧
    ((handleFileUpload names).2 = "" ↔
      (handleFileUpload names).1.length = names.length) ∧
    ((handleFileUpload names).1.length ≠ names.length →
      (handleFileUpload names).2 =
        skippedFilesMsg (names.length - (handleFileUpload names).1.length)) := by
  have hfst : (handleFileUpload names).1 = uploadValidFiles names := by
    unfold handleFileUpload
    split <;> rfl
  by_cases hlen : (uploadValidFiles names).length = names.length
  · have hsnd : (handleFileUpload names).2 = "" := by
      unfold handleFileUpload
      rw [if_neg (not_not_intro hlen)]
    refine ⟨?_, ?_, ?_⟩
    · intro n
      rw [hfst]
      simp [uploadValidFiles, List.mem_filter]
    · rw [hsnd, hfst]
      exact ⟨fun _ => hlen, fun _ => rfl⟩
    · intro hne
      rw [hfst] at hne
      exact absurd hlen hne
  · have hsnd : (handleFileUpload names).2 =
        skippedFilesMsg (names.length - (uploadValidFiles names).length) := by
      unfold handleFileUpload
      rw [if_pos hlen]
    refine ⟨?_, ?_, ?_⟩
    · intro n
      rw [hfst]
      simp [uploadValidFiles, List.mem_filter]
    · rw [hsnd, hfst]
      exact ⟨fun hmsg => absurd hmsg (skippedFilesMsg_ne_empty _),
        fun hx => absurd hx hlen⟩
    · intro _
      rw [hsnd, hfst]

/-- Witness for the amended claim C9 at a concrete selection: of
`["a.py", "b.txt"]` only `"a.py"` is kept and the banner reports one
skipped file. -/
theorem handleFileUpload_filter_c9_witness :
    "a.py" ∈ (handleFileUpload ["a.py", "b.txt"]).1 ∧
    (handleFileUpload ["a.py", "b.txt"]).2 =
      skippedFilesMsg (["a.py", "b.txt"].length -
        (handleFileUpload ["a.py", "b.txt"]).1.length) :=
  ⟨((handleFileUpload_filter_c9 ["a.py", "b.txt"]).1 "a.py").mpr
      ⟨by decide, by decide⟩,
   (handleFileUpload_filter_c9 ["a.py", "b.txt"]).2.2 (by decide)⟩

/-- Taking while a predicate holds of a whole leading block passes the
block and continues in the remainder. -/
theorem takeWhile_append_all {α : Type} {p : α → Bool} {a b : List α}
    (h : ∀ c ∈ a, p c = true) :
    (a ++ b).takeWhile p = a ++ b.takeWhile p := by
  induction a with
  | nil => simp
  | cons x t ih =>
    simp only [List.cons_append,
      List.takeWhile_cons_of_pos (h x (List.mem_cons_self x t))]
    rw [ih fun c hc => h c (List.mem_cons_of_mem x hc)]

/-- Dropping while a predicate holds of a whole leading block skips the
block and continues in the remainder. -/
theorem dropWhile_append_all {α : Type} {p : α → Bool} {a b : List α}
    (h : ∀ c ∈ a, p c = true) :
    (a ++ b).dropWhile p = b.dropWhile p := by
  induction a with
  | nil => simp
  | cons x t ih =>
    simp only [List.cons_append,
      List.dropWhile_cons_of_pos (h x (List.mem_cons_self x t))]
    exact ih fun c hc => h c (List.mem_cons_of_mem x hc)

/-- A list whose head does not satisfy the predicate is unchanged by
`dropWhile`. -/
theorem dropWhile_of_headNotWs {l : List Char}
    (h : headNotWs l = true) : l.dropWhile jsWsChar = l := by
  cases l with
  | nil => rfl
  | cons c t =>
    simp only [headNotWs, Bool.not_eq_eq_eq_not, Bool.not_true] at h
    exact List.dropWhile_cons_of_neg (by simp [h])

/-- A digit character is not in the JavaScript whitespace class. -/
theorem digit_not_ws (c : Char) (h : c.isDigit = true) : jsWsChar c = false := by
  cases hw : jsWsChar c
  · rfl
  · exfalso
    simp only [jsWsChar, Bool.or_eq_true, beq_iff_eq] at hw
    rcases hw with ((((rfl | rfl) | rfl) | rfl) | rfl) | rfl <;>
      exact absurd h (by decide)

/-- `contains` is false for an element not in the list. -/
theorem contains_false_of_not_mem {l : List Char} {a : Char} (h : a ∉ l) :
    l.contains a = false := by
  cases hc : l.contains a
  · rfl
  · exact absurd (by simpa [List.contains] using hc) h

/-- The snippet-line regular expression on a marked line
`num|>>> code`: it captures the digit run, the marker and the code. -/
theorem parseSnippetLine_marked (num code : List Char)
    (hnum : num ≠ []) (hdig : ∀ c ∈ num, c.isDigit = true)
    (hhead : headNotWs code = true) (hnl : '\n' ∉ code) :
    parseSnippetLine (num ++ '|' :: '>' :: '>' :: '>' :: ' ' :: code) =
      some (num, true, code) := by
  have hheadnum : headNotWs (num ++ '|' :: '>' :: '>' :: '>' :: ' ' :: code) = true := by
    cases num with
    | nil => exact absurd rfl hnum
    | cons c t =>
      simp only [List.cons_append, headNotWs, Bool.not_eq_eq_eq_not, Bool.not_true]
      exact digit_not_ws c (hdig c (List.mem_cons_self c t))
  have h1 := dropWhile_of_headNotWs hheadnum
  have h2 : (num ++ '|' :: '>' :: '>' :: '>' :: ' ' :: code).takeWhile Char.isDigit
      = num := by
    rw [takeWhile_append_all hdig, List.takeWhile_cons_of_neg (by decide),
      List.append_nil]
  simp only [parseSnippetLine, h1, h2, List.isEmpty_eq_false.mpr hnum,
    Bool.false_eq_true, if_false, List.drop_left]
  simp only [List.dropWhile_cons_of_neg (by decide : ¬ jsWsChar '>' = true),
    List.take, List.drop, if_pos rfl, ite_true,
    List.dropWhile_cons_of_pos (by decide : jsWsChar ' ' = true),
    dropWhile_of_headNotWs hhead, contains_false_of_not_mem hnl,
    Bool.false_eq_true, if_false]

/-- The snippet-line regular expression on an unmarked line `num| code`:
it captures the digit run and the code, with no marker. -/
theorem parseSnippetLine_unmarked (num code : List Char)
    (hnum : num ≠ []) (hdig : ∀ c ∈ num, c.isDigit = true)
    (hhead : headNotWs code = true)
    (hmark : ¬ (code.take 3 = ['>', '>', '>'])) (hnl : '\n' ∉ code) :
    parseSnippetLine (num ++ '|' :: ' ' :: code) = some (num, false, code) := by
  have hheadnum : headNotWs (num ++ '|' :: ' ' :: code) = true := by
    cases num with
    | nil => exact absurd rfl hnum
    | cons c t =>
      simp only [List.cons_append, headNotWs, Bool.not_eq_eq_eq_not, Bool.not_true]
      exact digit_not_ws c (hdig c (List.mem_cons_self c t))
  have h1 := dropWhile_of_headNotWs hheadnum
  have h2 : (num ++ '|' :: ' ' :: code).takeWhile Char.isDigit = num := by
    rw [takeWhile_append_all hdig, List.takeWhile_cons_of_neg (by decide),
      List.append_nil]
  simp only [parseSnippetLine, h1, h2, List.isEmpty_eq_false.mpr hnum,
    Bool.false_eq_true, if_false, List.drop_left]
  simp only [List.dropWhile_cons_of_pos (by decide : jsWsChar ' ' = true),
    dropWhile_of_headNotWs hhead]
  have hcon : code.contains '\n' = false := contains_false_of_not_mem hnl
  simp only [if_neg hmark, hcon, Bool.false_eq_true, if_false]

/-- Claim C5: a line of the shape `N|>>> code` is rendered as the marked
problem line - the `>>>` prefix (plain formatter) and the
`problematic-line` flag (highlighting formatter) - with the line number
left-padded to width 4; a line of the shape `N| code` without the
marker is rendered unmarked; a line matching neither shape passes
through unchanged; and both snippet formatters apply this per line of
the snippet. -/
theorem snippet_line_rendering_c5 (num code line s : String) :
    (num.data ≠ [] → num.data.all Char.isDigit = true →
     headNotWs code.data = true → '\n' ∉ code.data →
       formatCodeSnippetLine (num ++ "|>>> " ++ code) =
         ">>> " ++ jsPadStart4 num ++ " | " ++ code ∧
       renderSnippetLine (num ++ "|>>> " ++ code) =
         .numbered true (jsPadStart4 num) code) ∧
    (num.data ≠ [] → num.data.all Char.isDigit = true →
     headNotWs code.data = true → ¬ (code.data.take 3 = ['>', '>', '>']) →
     '\n' ∉ code.data →
       formatCodeSnippetLine (num ++ "| " ++ code) =
         "    " ++ jsPadStart4 num ++ " | " ++ code ∧
       renderSnippetLine (num ++ "| " ++ code) =
         .numbered false (jsPadStart4 num) code) ∧
    (parseSnippetLine line.data = none →
       formatCodeSnippetLine line = line ∧
       renderSnippetLine line = .plain line) ∧
    formatCodeSnippet s =
      String.intercalate "\n" ((s.splitOn "\n").map formatCodeSnippetLine) ∧
    formatCodeSnippetWithHighlighting s =
      (s.splitOn "\n").map renderSnippetLine := by
  have hmk : ∀ t : String, String.mk t.data = t := fun t => rfl
  refine ⟨?_, ?_, ?_, rfl, rfl⟩
  · intro hnum hdig hhead hnl
    have hdata : (num ++ "|>>> " ++ code).data =
        num.data ++ '|' :: '>' :: '>' :: '>' :: ' ' :: code.data := by
      simp [String.data_append]
    have hp := parseSnippetLine_marked num.data code.data hnum
      (List.all_eq_true.mp hdig) hhead hnl
    constructor
    · apply String.ext
      show formatSnippetLineCore (num ++ "|>>> " ++ code).data = _
      rw [hdata, formatSnippetLineCore, hp]
      simp [String.data_append, jsPadStart4]
    · show renderSnippetLine _ = _
      rw [renderSnippetLine, hdata, hp]
      rfl
  · intro hnum hdig hhead hmark hnl
    have hdata : (num ++ "| " ++ code).data =
        num.data ++ '|' :: ' ' :: code.data := by
      simp [String.data_append]
    have hp := parseSnippetLine_unmarked num.data code.data hnum
      (List.all_eq_true.mp hdig) hhead hmark hnl
    constructor
    · apply String.ext
      show formatSnippetLineCore (num ++ "| " ++ code).data = _
      rw [hdata, formatSnippetLineCore, hp]
      simp [String.data_append, jsPadStart4]
    · show renderSnippetLine _ = _
      rw [renderSnippetLine, hdata, hp]
      rfl
  · intro hnone
    constructor
    · apply String.ext
      show formatSnippetLineCore line.data = _
      rw [formatSnippetLineCore, hnone]
    · show renderSnippetLine _ = _
      rw [renderSnippetLine, hnone]

/-- Characters of a `takeWhile` block satisfy the predicate. -/
theorem mem_takeWhile_pred {p : Char → Bool} {l : List Char} {c : Char}
    (h : c ∈ l.takeWhile p) : p c = true := by
  induction l with
  | nil => simp at h
  | cons a t ih =>
    cases hpa : p a
    · rw [List.takeWhile_cons_of_neg (by simp [hpa])] at h
      simp at h
    · rw [List.takeWhile_cons_of_pos hpa] at h
      rcases List.mem_cons.mp h with rfl | h1
      · exact hpa
      · exact ih h1

/-- Dropping as many elements as the `takeWhile` block is `dropWhile`. -/
theorem drop_takeWhile_length (p : Char → Bool) (l : List Char) :
    l.drop (l.takeWhile p).length = l.dropWhile p := by
  induction l with
  | nil => rfl
  | cons c t ih =>
    cases hpc : p c
    · rw [List.takeWhile_cons_of_neg (by simp [hpc]),
        List.dropWhile_cons_of_neg (by simp [hpc])]
      rfl
    · rw [List.takeWhile_cons_of_pos hpc, List.dropWhile_cons_of_pos hpc]
      simpa using ih

/-- The head of a non-empty `dropWhile` residue fails the predicate. -/
theorem dropWhile_head_false {p : Char → Bool} {l : List Char} {c : Char}
    {r : List Char} (h : l.dropWhile p = c :: r) : p c = false := by
  induction l with
  | nil => simp at h
  | cons a t ih =>
    cases hpa : p a
    · rw [List.dropWhile_cons_of_neg (by simp [hpa])] at h
      injection h with h1 _
      subst h1
      exact hpa
    · rw [List.dropWhile_cons_of_pos hpa] at h
      exact ih h

/-- `listStartsWith` holds exactly of lists with the given block in
front. -/
theorem listStartsWith_iff (p l : List Char) :
    listStartsWith p l = true ↔ ∃ t, l = p ++ t := by
  induction p generalizing l with
  | nil =>
    simp [listStartsWith]
  | cons x ps ih =>
    cases l with
    | nil =>
      simp [listStartsWith]
    | cons c cs =>
      simp only [listStartsWith, Bool.and_eq_true, beq_iff_eq, ih,
        List.cons_append]
      constructor
      · rintro ⟨rfl, t, rfl⟩
        exact ⟨t, rfl⟩
      · rintro ⟨t, ht⟩
        rw [List.cons.injEq] at ht
        exact ⟨ht.1.symm, t, ht.2⟩

/-- One regex attempt succeeds exactly on lists headed by the full
`github.com/owner/repo` pattern. -/
theorem ghMatchAt_isSome_iff (l : List Char) :
    (ghMatchAt l).isSome = true ↔
      ∃ owner repo post,
        l = "github.com/".data ++ (owner ++ ('/' :: (repo ++ post))) ∧
        owner ≠ [] ∧ (∀ c ∈ owner, (c != '/') = true) ∧
        repo ≠ [] ∧ (∀ c ∈ repo, (c != '/') = true) := by
  constructor
  · intro h
    simp only [ghMatchAt] at h
    by_cases hpfx : listStartsWith "github.com/".data l = true
    · rw [if_pos hpfx] at h
      obtain ⟨tail, rfl⟩ := (listStartsWith_iff _ _).mp hpfx
      rw [@List.drop_left' Char "github.com/".data tail 11 rfl] at h
      by_cases hoe : ((tail.takeWhile (fun c => c != '/')).isEmpty = true)
      · rw [if_pos hoe] at h
        simp at h
      · rw [if_neg hoe, drop_takeWhile_length] at h
        cases hrest : tail.dropWhile (fun c => c != '/') with
        | nil =>
          rw [hrest] at h
          simp at h
        | cons c2 r2 =>
          rw [hrest] at h
          have hc2 : (c2 != '/') = false :=
            @dropWhile_head_false (fun c => c != '/') tail c2 r2 hrest
          have hc2e : c2 = '/' := by simpa using hc2
          subst hc2e
          by_cases hre : ((r2.takeWhile (fun c => c != '/')).isEmpty = true)
          · simp [hre] at h
          · have htail : tail = tail.takeWhile (fun c => c != '/') ++ ('/' :: r2) := by
              rw [← hrest]
              exact (List.takeWhile_append_dropWhile (fun c => c != '/') tail).symm
            have htail2 : tail = tail.takeWhile (fun c => c != '/') ++
                ('/' :: (r2.takeWhile (fun c => c != '/') ++
                  r2.dropWhile (fun c => c != '/'))) := by
              conv_rhs =>
                rw [List.takeWhile_append_dropWhile (fun c => c != '/') r2]
              exact htail
            refine ⟨tail.takeWhile (fun c => c != '/'),
              r2.takeWhile (fun c => c != '/'),
              r2.dropWhile (fun c => c != '/'),
              congrArg ("github.com/".data ++ ·) htail2, ?_, ?_, ?_, ?_⟩
            · intro hnil
              exact hoe (by rw [hnil]; rfl)
            · intro c hc
              exact @mem_takeWhile_pred (fun c => c != '/') tail c hc
            · intro hnil
              exact hre (by rw [hnil]; rfl)
            · intro c hc
              exact @mem_takeWhile_pred (fun c => c != '/') r2 c hc
    · rw [if_neg hpfx] at h
      simp at h
  · rintro ⟨owner, repo, post, rfl, ho, hoc, hr, hrc⟩
    simp only [ghMatchAt]
    have hpfx : listStartsWith "github.com/".data
        ("github.com/".data ++ (owner ++ ('/' :: (repo ++ post)))) = true :=
      (listStartsWith_iff _ _).mpr ⟨_, rfl⟩
    rw [if_pos hpfx,
      @List.drop_left' Char "github.com/".data (owner ++ ('/' :: (repo ++ post))) 11 rfl]
    have htake : (owner ++ ('/' :: (repo ++ post))).takeWhile (fun c => c != '/')
        = owner := by
      rw [takeWhile_append_all hoc, List.takeWhile_cons_of_neg (by decide),
        List.append_nil]
    rw [htake, if_neg (by simp [ho]),
      @List.drop_left' Char owner ('/' :: (repo ++ post)) owner.length rfl]
    simp [takeWhile_append_all hrc, List.append_eq_nil, hr]

/-- The leftmost-match search succeeds exactly when some suffix
matches. -/
theorem ghSearch_isSome_iff (l : List Char) :
    (ghSearch l).isSome = true ↔ ∃ n, (ghMatchAt (l.drop n)).isSome = true := by
  induction l with
  | nil =>
    simp only [ghSearch, Option.isSome_none, Bool.false_eq_true, false_iff]
    rintro ⟨n, hn⟩
    rw [List.drop_nil] at hn
    revert hn
    decide
  | cons c rest ih =>
    simp only [ghSearch]
    cases hm : ghMatchAt (c :: rest) with
    | some p =>
      simp only [Option.isSome_some, true_iff]
      exact ⟨0, by rw [List.drop_zero, hm]; rfl⟩
    | none =>
      rw [ih]
      constructor
      · rintro ⟨n, hn⟩
        exact ⟨n + 1, by simpa using hn⟩
      · rintro ⟨n, hn⟩
        cases n with
        | zero =>
          rw [List.drop_zero, hm] at hn
          simp at hn
        | succ m =>
          exact ⟨m, by simpa using hn⟩

/-- Claim C10: `extractGithubRepo` is total; it returns an owner/repo
pair exactly when the selected summary string (github_url, falling back
to project_path, with empty strings falsy) is non-empty and, after the
missing-slash repair, contains `github.com/owner/repo` with non-empty
slash-free owner and repo segments; in every other case - including when
both fields are absent - it returns null. -/
theorem extractGithubRepo_total_c10 (github_url project_path : Option String) :
    ((extractGithubRepo github_url project_path).isSome = true ↔
      ∃ s pre owner repo post,
        jsOrStr github_url project_path = some s ∧ s ≠ "" ∧
        (fixUrl s).data =
          pre ++ ("github.com/".data ++ (owner ++ ('/' :: (repo ++ post)))) ∧
        owner ≠ [] ∧ (∀ c ∈ owner, c ≠ '/') ∧
        repo ≠ [] ∧ (∀ c ∈ repo, c ≠ '/')) ∧
    extractGithubRepo none none = none := by
  refine ⟨?_, rfl⟩
  cases hsel : jsOrStr github_url project_path with
  | none =>
    simp [extractGithubRepo, hsel]
  | some s =>
    by_cases hse : s = ""
    · subst hse
      simp [extractGithubRepo, hsel]
    · simp only [extractGithubRepo, hsel, if_neg hse]
      rw [ghSearch_isSome_iff]
      constructor
      · rintro ⟨n, hn⟩
        rw [ghMatchAt_isSome_iff] at hn
        obtain ⟨owner, repo, post, heq, ho, hoc, hr, hrc⟩ := hn
        refine ⟨s, (fixUrl s).data.take n, owner, repo, post, rfl, hse,
          ?_, ho, ?_, hr, ?_⟩
        · conv_lhs => rw [← List.take_append_drop n (fixUrl s).data]
          rw [heq]
        · intro c hc
          simpa using hoc c hc
        · intro c hc
          simpa using hrc c hc
      · rintro ⟨t, pre, owner, repo, post, hsome, hne, heq, ho, hoc, hr, hrc⟩
        obtain rfl : t = s := (Option.some.inj hsome).symm
        refine ⟨pre.length, ?_⟩
        rw [ghMatchAt_isSome_iff]
        refine ⟨owner, repo, post, ?_, ho, ?_, hr, ?_⟩
        · rw [heq, List.drop_left]
        · intro c hc
          simpa using hoc c hc
        · intro c hc
          simpa using hrc c hc

/-- Witness for claim C10: a URL with the missing-slash typo yields an
owner/repo pair. -/
theorem extractGithubRepo_total_c10_witness :
    (extractGithubRepo (some "https:/github.com/into-the-night/codet")
      none).isSome = true :=
  ((extractGithubRepo_total_c10
      (some "https:/github.com/into-the-night/codet") none).1).mpr
    ⟨"https:/github.com/into-the-night/codet", "https://".data,
     "into-the-night".data, "codet".data, [],
     rfl, by decide, by decide, by decide, by decide, by decide, by decide⟩

/-- Witness for claim C5 at concrete lines: a marked, an unmarked and a
passthrough line. -/
theorem snippet_line_rendering_c5_witness :
    formatCodeSnippetLine ("12" ++ "|>>> " ++ "const x = 1;") =
      ">>> " ++ jsPadStart4 "12" ++ " | " ++ "const x = 1;" ∧
    renderSnippetLine ("7" ++ "| " ++ "return y") =
      .numbered false (jsPadStart4 "7") "return y" ∧
    formatCodeSnippetLine "just prose" = "just prose" :=
  ⟨((snippet_line_rendering_c5 "12" "const x = 1;" "" "").1
      (by decide) (by decide) (by decide) (by decide)).1,
   ((snippet_line_rendering_c5 "7" "return y" "" "").2.1
      (by decide) (by decide) (by decide) (by decide) (by decide)).2,
   ((snippet_line_rendering_c5 "" "" "just prose" "").2.2.1 (by decide)).1⟩

end Codet
